import Mathlib

/-
Verification of the update-dispatch, authorization, locale-registry and
offload-pool behaviour of the bot application defined in
`src/vladpy_telegram_ro_bot/_application/_application.py`.

The embedding translates the dispatcher configuration built in
`Application.__initialize_application` (lines 152-239): the filter algebra
`COMMAND & USER & CHAT & ~VIA_BOT & usernames_whitelist_filter` attached to
each `telegram.ext.CommandHandler`, the
`(TEXT | CAPTION) & ~COMMAND & USER & CHAT & ~VIA_BOT & whitelist` filter of
the `telegram.ext.MessageHandler`, the publication calls of
`set_my_commands` / `set_my_description` / `set_my_short_description` for the
default locale and for the locale string given as ru, the single
`concurrent.futures.ProcessPoolExecutor(max_workers=1)` created in
`Application.__create_appplication`, its `shutdown()` call in
`Application.__shutdown_application`, and the error handler
`Application.__handle_error`.  Library combinators from the
`telegram.ext` dependency are embedded with their documented semantics as
configured by the source file.
-/

/-- A Telegram user as the configured filters observe it: only the optional
username matters to `telegram.ext.filters.User(username=...)`. -/
structure TgUser where
  username : Option String
deriving DecidableEq, Repr

/-- The observable part of an incoming update for the handler filters
registered in `__initialize_application`: sender, chat presence, the
via-bot flag, and the optional text and caption payloads. -/
structure Message where
  fromUser : Option TgUser
  hasChat : Bool
  viaBot : Bool
  text : Option String
  caption : Option String
deriving DecidableEq, Repr

/-- `telegram.ext.filters.USER`: the update has a resolvable sender. -/
def filterUSER (m : Message) : Bool :=
  m.fromUser.isSome

/-- `telegram.ext.filters.CHAT`: the update has a defined chat context. -/
def filterCHAT (m : Message) : Bool :=
  m.hasChat

/-- `telegram.ext.filters.VIA_BOT`: the update was relayed via another bot. -/
def filterVIABOT (m : Message) : Bool :=
  m.viaBot

/-- `telegram.ext.filters.TEXT`: the message carries text. -/
def filterTEXT (m : Message) : Bool :=
  m.text.isSome

/-- `telegram.ext.filters.CAPTION`: the message carries a caption. -/
def filterCAPTION (m : Message) : Bool :=
  m.caption.isSome

/-- `telegram.ext.filters.COMMAND`: the message text starts with a
bot-command entity at offset zero, i.e. its text begins with a slash.
Captions are not inspected by this filter. -/
def filterCOMMAND (m : Message) : Bool :=
  match m.text with
  | some t =>
    match t.toList with
    | c :: _ => c == '/'
    | [] => false
  | none => false

/-- The `usernames_whitelist_filter` built at lines 196-201 of the source:
`telegram.ext.filters.User(allow_empty=(whitelist is None), username=whitelist)`.
With no sender the filter rejects; with a whitelist present it accepts
exactly the members; with the whitelist absent it accepts every sender
(`allow_empty=True` and no usernames configured). -/
def filterUserWhitelist (wl : Option (List String)) (m : Message) : Bool :=
  match m.fromUser with
  | none => false
  | some u =>
    match wl with
    | none => true
    | some names =>
      match u.username with
      | some s => names.contains s
      | none => false

/-- The conjunction of structural filters and the whitelist filter that the
source attaches (by `&`) to every registered handler:
`USER & CHAT & ~VIA_BOT & usernames_whitelist_filter`. -/
def structuralOk (wl : Option (List String)) (m : Message) : Bool :=
  filterUSER m && filterCHAT m && !(filterVIABOT m) && filterUserWhitelist wl m

/-- Split a character list into maximal whitespace-free words, dropping the
whitespace, as the Python `str.split()` used by the command parser does.
The accumulator holds the current word reversed. -/
def splitWordsAux : List Char → List Char → List (List Char)
  | [], acc => if acc.isEmpty then [] else [acc.reverse]
  | c :: rest, acc =>
    if c.isWhitespace then
      if acc.isEmpty then splitWordsAux rest []
      else acc.reverse :: splitWordsAux rest []
    else splitWordsAux rest (c :: acc)

/-- Characters of a word before its first at-sign, as the Python
`split("@")` first component. -/
def takeUntilAt : List Char → List Char
  | [] => []
  | c :: rest => if c == '@' then [] else c :: takeUntilAt rest

/-- Characters between the first at-sign and the following at-sign (if any),
as the Python `split("@")` second component; `none` when the word has no
at-sign. -/
def afterAt : List Char → Option (List Char)
  | [] => none
  | c :: rest => if c == '@' then some (takeUntilAt rest) else afterAt rest

/-- Command-line parsing performed by `telegram.ext.CommandHandler` on a
message text: the text must begin with a slash and have further content;
the first whitespace-separated word, with the slash removed, is split at
the first at-sign into the command token and an optional bot mention; the
remaining words are the arguments. -/
def parseCommandText (t : String) : Option (String × Option String × List String) :=
  match t.toList with
  | '/' :: rest =>
    if rest.isEmpty then none
    else
      match splitWordsAux ('/' :: rest) [] with
      | [] => none
      | w :: args =>
        some (String.mk (takeUntilAt (w.drop 1)),
              (afterAt (w.drop 1)).map String.mk,
              args.map String.mk)
  | _ => none

/-- The token-matching part of `telegram.ext.CommandHandler.check_update`
for a handler registered with command name `cmdName` and `has_args=False`
(as at lines 203-219 of the source): the text parses as a command, its
token equals the registered name, any bot mention names this bot, and the
command carries no arguments. -/
def commandHandlerMatch (botUsername cmdName : String) (m : Message) : Bool :=
  match m.text with
  | none => false
  | some t =>
    match parseCommandText t with
    | none => false
    | some (tok, mention, args) =>
      tok == cmdName
      && (match mention with
          | none => true
          | some b => b == botUsername)
      && args.isEmpty

/-- Full acceptance test of one registered `CommandHandler`: token match
plus the configured filter conjunction
`COMMAND & USER & CHAT & ~VIA_BOT & whitelist`. -/
def commandHandlerCheck (wl : Option (List String)) (botUsername cmdName : String)
    (m : Message) : Bool :=
  commandHandlerMatch botUsername cmdName m && (filterCOMMAND m && structuralOk wl m)

/-- Acceptance test of the registered `MessageHandler` (lines 221-237):
`(TEXT | CAPTION) & ~COMMAND & USER & CHAT & ~VIA_BOT & whitelist`. -/
def messageHandlerCheck (wl : Option (List String)) (m : Message) : Bool :=
  ((filterTEXT m || filterCAPTION m) && !(filterCOMMAND m)) && structuralOk wl m

/-- Destination of a dispatched update. -/
inductive Route
  | command (name : String)
  | translation
deriving DecidableEq, Repr

/-- The dispatch performed by the application built in
`__initialize_application`: the command handlers are registered first, one
per command of `Command.command_sequence(None)`, then the message handler;
within the default handler group the first handler whose check succeeds
receives the update, and an update matching no handler is dropped. -/
def routeUpdate (wl : Option (List String)) (botUsername : String)
    (cmds : List String) (m : Message) : Option Route :=
  match cmds.find? (fun c => commandHandlerCheck wl botUsername c m) with
  | some c => some (Route.command c)
  | none => if messageHandlerCheck wl m then some Route.translation else none

/-- An update is accepted for handling when some registered handler takes it. -/
def accepted (wl : Option (List String)) (botUsername : String)
    (cmds : List String) (m : Message) : Bool :=
  (routeUpdate wl botUsername cmds m).isSome

/-- The payload text of an update in the sense of the data model: the
message text when present, otherwise the caption. -/
def payloadText (m : Message) : Option String :=
  match m.text with
  | some t => some t
  | none => m.caption

/-- Whether a payload string begins with a recognized command token. -/
def beginsWithRecognizedCommandToken (cmds : List String) (s : String) : Bool :=
  match parseCommandText s with
  | some (tok, _, _) => cmds.contains tok
  | none => false

/-- A bot command of the locale registry: its name and its localized
display description, as used by `set_my_commands` and by
`telegram.ext.CommandHandler(command=command.command, ...)`. -/
structure Command where
  command : String
  description : String
deriving DecidableEq, Repr

/-- Modelled from the spec: the default-locale command table of the Locale
Text Registry (module `_text_invariant._command` of the repository is not
under src/); a static, non-empty command list. -/
def defaultCommandSequence : List Command :=
  [{ command := "start", description := "Start the bot" },
   { command := "help", description := "Show usage help" }]

/-- Modelled from the spec: the ru-locale command table of the Locale Text
Registry; the same command names as the default table with localized
display text. -/
def ruCommandSequence : List Command :=
  [{ command := "start", description := "Zapustit bota" },
   { command := "help", description := "Pokazat spravku" }]

/-- The locales the application publishes for: the default locale and ru,
exactly the two used at lines 163-190 of the source. -/
def supportedLocales : List (Option String) :=
  [none, some "ru"]

/-- Modelled from the spec: `Command.command_sequence(locale)` of the
Locale Text Registry; resolution is exact locale match, else the default
table. -/
def command_sequence : Option String → List Command
  | some locale => if locale = "ru" then ruCommandSequence else defaultCommandSequence
  | none => defaultCommandSequence

/-- The command names registered as command handlers, taken from
`Command.command_sequence(None)` as at line 203 of the source. -/
def botCommandNames : List String :=
  (command_sequence none).map Command.command

/-- Result of one offload job as seen by a waiter on its future. -/
inductive JobResult
  | completed
  | cancelled
deriving DecidableEq, Repr

/-- State of the offload pool
(`concurrent.futures.ProcessPoolExecutor(max_workers=1)` created at lines
113-117): whether it still accepts jobs, the FIFO queue of pending job
identifiers, the worker execution log, and the resolved results. -/
structure PoolState where
  openFlag : Bool
  pending : List Nat
  execLog : List Nat
  results : List (Nat × JobResult)
deriving DecidableEq, Repr

/-- The freshly constructed pool: open, with nothing queued or executed. -/
def PoolState.initial : PoolState :=
  { openFlag := true, pending := [], execLog := [], results := [] }

/-- Operations on the pool: a submission, one unit of single-worker
progress, and `shutdown()` as called by `__shutdown_application`. -/
inductive PoolOp
  | submit (j : Nat)
  | step
  | drainAndStop
deriving DecidableEq, Repr

/-- Semantics of one pool operation.  `submit` appends to the FIFO queue
while the pool is open and is ignored after shutdown; `step` lets the
single worker execute the head of the queue, resolving its result as
completed; `drainAndStop` models `ProcessPoolExecutor.shutdown()` with its
default `wait=True` and no cancellation: the pool stops accepting jobs and
every queued or running job runs to completion. -/
def poolApply (s : PoolState) (op : PoolOp) : PoolState :=
  match op with
  | PoolOp.submit j =>
    if s.openFlag then { s with pending := s.pending ++ [j] } else s
  | PoolOp.step =>
    match s.pending with
    | [] => s
    | j :: rest =>
      { s with pending := rest, execLog := s.execLog ++ [j],
               results := s.results ++ [(j, JobResult.completed)] }
  | PoolOp.drainAndStop =>
    { s with openFlag := false,
             execLog := s.execLog ++ s.pending,
             results := s.results ++ s.pending.map (fun k => (k, JobResult.completed)),
             pending := [] }

/-- Outcome of a submission attempt: the new pool state, or the failure
raised by `ProcessPoolExecutor.submit` after `shutdown()`. -/
inductive SubmitResult
  | ok (s : PoolState)
  | poolUnavailable
deriving DecidableEq, Repr

/-- `ProcessPoolExecutor.submit`: enqueue while open, fail after shutdown. -/
def poolSubmit (s : PoolState) (j : Nat) : SubmitResult :=
  if s.openFlag then SubmitResult.ok { s with pending := s.pending ++ [j] }
  else SubmitResult.poolUnavailable

/-- Run a sequence of pool operations from a given state. -/
def runOps (s : PoolState) (ops : List PoolOp) : PoolState :=
  ops.foldl poolApply s

/-- The jobs whose submission the pool accepts along an operation
sequence, in submission order. -/
def acceptedSubs : PoolState → List PoolOp → List Nat
  | _, [] => []
  | s, op :: rest =>
    match op with
    | PoolOp.submit j =>
      (if s.openFlag then [j] else []) ++ acceptedSubs (poolApply s op) rest
    | _ => acceptedSubs (poolApply s op) rest

/-- One publication performed by `__initialize_application` through the
bot administrative interface, tagged with its locale. -/
inductive PubAction
  | commands (locale : Option String)
  | descr (locale : Option String)
  | shortDescr (locale : Option String)
deriving DecidableEq, Repr

/-- The publications of `__initialize_application` in source order
(lines 163-190): command list, description, and short description, each
for the default locale and then for ru. -/
def publishActions : List PubAction :=
  [PubAction.commands none, PubAction.commands (some "ru"),
   PubAction.descr none, PubAction.descr (some "ru"),
   PubAction.shortDescr none, PubAction.shortDescr (some "ru")]

/-- Execution of a publication sequence when each awaited call may raise:
the source wraps none of the calls in a try block, so the first failing
call is attempted and every later call is skipped.  Returns the attempted
actions and whether the whole sequence succeeded. -/
def attemptPublishes (fails : PubAction → Bool) :
    List PubAction → List PubAction × Bool
  | [] => ([], true)
  | a :: rest =>
    if fails a then ([a], false)
    else
      ((a :: (attemptPublishes fails rest).1), (attemptPublishes fails rest).2)

/-- Events of one process run of `Application.run`, in order: logging
setup, configuration read, pool and bot construction inside
`__create_appplication`, dispatcher build, the `post_init` initialization,
polling, and the `post_shutdown` shutdown.  Pool events carry the identity
of the pool instance they touch. -/
inductive RunEvent
  | initiateLogs
  | readConfig
  | createPool (poolId : Nat)
  | createBot (poolId : Nat)
  | buildDispatcher
  | setCommands (locale : Option String)
  | setDescription (locale : Option String)
  | setShortDescription (locale : Option String)
  | addErrorHandler
  | addCommandHandler (sourceLocale : Option String) (command : String)
  | addMessageHandler
  | polling
  | logShutdownBegin
  | shutdownPool (poolId : Nat)
  | logShutdownEnd
deriving DecidableEq, Repr

/-- The run event corresponding to one publication. -/
def pubEvent : PubAction → RunEvent
  | PubAction.commands l => RunEvent.setCommands l
  | PubAction.descr l => RunEvent.setDescription l
  | PubAction.shortDescr l => RunEvent.setShortDescription l

/-- The events of `__initialize_application` when nothing fails: the six
publications, then error-handler registration, then one command handler
per command of `Command.command_sequence(None)`, then the message
handler. -/
def appInitTrace : List RunEvent :=
  publishActions.map pubEvent
  ++ [RunEvent.addErrorHandler]
  ++ (command_sequence none).map (fun c => RunEvent.addCommandHandler none c.command)
  ++ [RunEvent.addMessageHandler]

/-- The full event trace of a run of `Application.run` that completes:
`initiate_logs`, `__read_config`, `__create_appplication` (pool id 0 is
the only pool ever constructed, handed to the bot, before the dispatcher
is built), initialization, polling, and the `post_shutdown` callback,
which logs begin, shuts the pool down, and logs end. -/
def runTrace : List RunEvent :=
  [RunEvent.initiateLogs, RunEvent.readConfig, RunEvent.createPool 0,
   RunEvent.createBot 0, RunEvent.buildDispatcher]
  ++ appInitTrace
  ++ [RunEvent.polling, RunEvent.logShutdownBegin, RunEvent.shutdownPool 0,
      RunEvent.logShutdownEnd]

/-- Points at which a run of `Application.run` can fail.  A publication
failure happens inside `post_init`, which `run_polling` follows with its
shutdown phase; the earlier failures propagate out of `run` before
`run_polling` is ever entered, so no shutdown phase runs. -/
inductive FailurePoint
  | noFailure
  | configRead
  | poolCreate
  | dispatcherBuild
  | publish (a : PubAction)
deriving DecidableEq, Repr

/-- The event trace of `Application.run` under each failure scenario. -/
def runScenario : FailurePoint → List RunEvent
  | FailurePoint.noFailure => runTrace
  | FailurePoint.configRead => [RunEvent.initiateLogs]
  | FailurePoint.poolCreate => [RunEvent.initiateLogs, RunEvent.readConfig]
  | FailurePoint.dispatcherBuild =>
    [RunEvent.initiateLogs, RunEvent.readConfig, RunEvent.createPool 0,
     RunEvent.createBot 0]
  | FailurePoint.publish a =>
    [RunEvent.initiateLogs, RunEvent.readConfig, RunEvent.createPool 0,
     RunEvent.createBot 0, RunEvent.buildDispatcher]
    ++ ((attemptPublishes (fun x => x == a) publishActions).1.map pubEvent)
    ++ [RunEvent.logShutdownBegin, RunEvent.shutdownPool 0, RunEvent.logShutdownEnd]

/-- Whether a run event is the construction of an offload pool. -/
def isCreatePoolEvent : RunEvent → Bool
  | RunEvent.createPool _ => true
  | _ => false

/-- The locales of all publications in the initialization trace. -/
def publicationLocales : List (Option String) :=
  appInitTrace.filterMap (fun e =>
    match e with
    | RunEvent.setCommands l => some l
    | RunEvent.setDescription l => some l
    | RunEvent.setShortDescription l => some l
    | _ => none)

/-- The source locales of all command-handler registrations in the
initialization trace. -/
def handlerSourceLocales : List (Option String) :=
  appInitTrace.filterMap (fun e =>
    match e with
    | RunEvent.addCommandHandler l _ => some l
    | _ => none)

/-- Modelled from the spec: the Bot (module `_bot` of the repository, not
under src/) keeps the background executor passed at construction and
submits every translation job to it. -/
structure BotModel where
  backgroundExecutorId : Nat
deriving DecidableEq, Repr

/-- The bot constructed in `__create_appplication`, wired to the single
pool instance. -/
def appBot : BotModel :=
  { backgroundExecutorId := 0 }

/-- Modelled from the spec: the pool every translation job of a bot is
submitted to. -/
def BotModel.translationSubmitTarget (b : BotModel) : Nat :=
  b.backgroundExecutorId

/-- Outcome of one handler invocation on one update. -/
inductive HandleOutcome
  | success
  | failure (e : String)
deriving DecidableEq, Repr

/-- The log lines written by `Application.__handle_error`: the update
argument is bound to an ignored parameter and only the error is
formatted. -/
def handleErrorLog (_u : Message) (e : String) : List String :=
  ["application error: " ++ e]

/-- The dispatch loop with the error handler registered by
`application.add_error_handler(self.__handle_error)` (line 194): every
update is handled; a handler exception is routed to the error handler,
whose log lines are collected, and the loop moves on to the next update.
Returns the number of updates whose handling ran and the error log. -/
def dispatchAll (handler : Message → HandleOutcome) :
    List Message → Nat × List String
  | [] => (0, [])
  | u :: rest =>
    match handler u with
    | HandleOutcome.success =>
      ((dispatchAll handler rest).1 + 1, (dispatchAll handler rest).2)
    | HandleOutcome.failure e =>
      ((dispatchAll handler rest).1 + 1, handleErrorLog u e ++ (dispatchAll handler rest).2)

/-- A photo-like update with no text and no caption, from a whitelisted
sender in a chat, not relayed via a bot. -/
def msgNoPayload : Message :=
  { fromUser := some { username := some "alice" }, hasChat := true,
    viaBot := false, text := none, caption := none }

/-- A media update whose caption is a recognized command line. -/
def msgCaptionCommand : Message :=
  { fromUser := some { username := some "alice" }, hasChat := true,
    viaBot := false, text := none, caption := some "/help" }

/-- A plain text update from a sender named alice. -/
def msgPlainText : Message :=
  { fromUser := some { username := some "alice" }, hasChat := true,
    viaBot := false, text := some "hello", caption := none }

/-- A text update from a sender named bob with the same text as
`msgPlainText`. -/
def msgPlainTextBob : Message :=
  { fromUser := some { username := some "bob" }, hasChat := true,
    viaBot := false, text := some "hello", caption := none }

/-- Any routed update passed the structural and whitelist filter
conjunction, since the source composes it into every handler filter. -/
theorem route_some_structural (wl : Option (List String)) (bu : String)
    (cmds : List String) (m : Message)
    (h : (routeUpdate wl bu cmds m).isSome = true) :
    structuralOk wl m = true := by
  unfold routeUpdate at h
  cases hf : cmds.find? (fun c => commandHandlerCheck wl bu c m) with
  | some c =>
    have hc := List.find?_some hf
    simp only [commandHandlerCheck, Bool.and_eq_true] at hc
    exact hc.2.2
  | none =>
    rw [hf] at h
    by_cases hm : messageHandlerCheck wl m = true
    · simp only [messageHandlerCheck, Bool.and_eq_true] at hm
      exact hm.2
    · simp [hm] at h

/-- A parsed command text begins with a slash. -/
theorem parseCommandText_slash (t : String) (r : String × Option String × List String)
    (hp : parseCommandText t = some r) :
    ∃ cs, t.toList = '/' :: cs := by
  unfold parseCommandText at hp
  split at hp
  · next rest heq => exact ⟨rest, heq⟩
  · exact absurd hp (by simp)

/-- A successful command token match implies the COMMAND filter: the
matched text begins with a slash. -/
theorem commandHandlerMatch_filterCOMMAND (bu c : String) (m : Message)
    (h : commandHandlerMatch bu c m = true) : filterCOMMAND m = true := by
  obtain ⟨fu, hch, vb, mt, mc⟩ := m
  cases mt with
  | none => simp [commandHandlerMatch] at h
  | some t =>
    cases hp : parseCommandText t with
    | none => simp [commandHandlerMatch, hp] at h
    | some r =>
      obtain ⟨cs, hcs⟩ := parseCommandText_slash t r hp
      simp only [String.toList] at hcs
      simp [filterCOMMAND, hcs]

/-- Claim C1 (amended): an incoming update is accepted for handling only
if it has a resolvable sender identity, a defined chat context, does not
originate via another bot, and its sender passes the whitelist predicate,
all composed as a logical AND into every handler filter (acceptance
additionally requires the payload condition of some handler); the
whitelist predicate is true for every sender when the whitelist is absent
and otherwise exactly when the sender username is a member of the
whitelist. -/
theorem acceptance_requires_filters (wl : Option (List String)) (bu : String)
    (cmds : List String) (m : Message) (h : accepted wl bu cmds m = true) :
    (filterUSER m = true ∧ filterCHAT m = true ∧ filterVIABOT m = false
      ∧ filterUserWhitelist wl m = true)
    ∧ (∀ m' : Message, m'.fromUser.isSome = true → filterUserWhitelist none m' = true)
    ∧ (∀ (m' : Message) (u : TgUser) (names : List String), m'.fromUser = some u →
        filterUserWhitelist (some names) m'
          = match u.username with
            | some s => names.contains s
            | none => false) := by
  refine ⟨?_, ?_, ?_⟩
  · have hs := route_some_structural wl bu cmds m h
    simp only [structuralOk, Bool.and_eq_true, Bool.not_eq_true'] at hs
    exact ⟨hs.1.1.1, hs.1.1.2, hs.1.2, hs.2⟩
  · intro m' hm'
    cases hu : m'.fromUser with
    | none => rw [hu] at hm'; exact absurd hm' (by simp)
    | some u => simp [filterUserWhitelist, hu]
  · intro m' u names hu
    simp [filterUserWhitelist, hu]

/-- Witness for `acceptance_requires_filters`: a concrete accepted plain
text update with the whitelist absent. -/
theorem acceptance_requires_filters_witness :
    accepted none "ro_bot" botCommandNames msgPlainText = true
    ∧ filterUserWhitelist none msgPlainText = true :=
  ⟨by decide,
   ((acceptance_requires_filters none "ro_bot" botCommandNames msgPlainText
      (by decide)).1).2.2.2⟩

/-- Claim C1 as stated is refuted: this update has a resolvable sender, a
defined chat context, is not relayed via another bot and passes the absent
whitelist, yet no registered handler accepts it, because it carries
neither a command nor text nor a caption. -/
theorem acceptance_iff_refuted :
    accepted none "ro_bot" botCommandNames msgNoPayload = false
    ∧ filterUSER msgNoPayload = true
    ∧ filterCHAT msgNoPayload = true
    ∧ filterVIABOT msgNoPayload = false
    ∧ filterUserWhitelist none msgNoPayload = true := by decide

/-- Claim C2 (amended): an update is routed to a command handler iff it
passes the structural and whitelist filters and its message text matches a
registered command token (argument-free, any bot mention naming this bot);
a caption that begins with a command token does not make the update a
command.  Otherwise it is routed to the translation handler iff it passes
the filters, carries text or a caption, and its text is not a command
line; an update matching neither case is routed to no handler. -/
theorem route_characterization (wl : Option (List String)) (bu : String)
    (cmds : List String) (m : Message) :
    ((∃ c, routeUpdate wl bu cmds m = some (Route.command c)) ↔
      (structuralOk wl m = true ∧ ∃ c ∈ cmds, commandHandlerMatch bu c m = true))
    ∧ (routeUpdate wl bu cmds m = some Route.translation ↔
      (structuralOk wl m = true ∧ (filterTEXT m || filterCAPTION m) = true
        ∧ filterCOMMAND m = false)) := by
  constructor
  · constructor
    · rintro ⟨c, hc⟩
      cases hf : cmds.find? (fun x => commandHandlerCheck wl bu x m) with
      | some c' =>
        have hcc := List.find?_some hf
        have hmem := List.mem_of_find?_eq_some hf
        simp only [commandHandlerCheck, Bool.and_eq_true] at hcc
        exact ⟨hcc.2.2, c', hmem, hcc.1⟩
      | none =>
        unfold routeUpdate at hc
        rw [hf] at hc
        by_cases hm : messageHandlerCheck wl m = true
        · simp [hm] at hc
        · simp [hm] at hc
    · rintro ⟨hs, c, hmem, hmatch⟩
      have hcmd : filterCOMMAND m = true :=
        commandHandlerMatch_filterCOMMAND bu c m hmatch
      have hcc : commandHandlerCheck wl bu c m = true := by
        simp [commandHandlerCheck, hmatch, hcmd, hs]
      have hsome : (cmds.find? (fun x => commandHandlerCheck wl bu x m)).isSome := by
        rw [List.find?_isSome]
        exact ⟨c, hmem, hcc⟩
      obtain ⟨c', hc'⟩ := Option.isSome_iff_exists.mp hsome
      refine ⟨c', ?_⟩
      unfold routeUpdate
      rw [hc']
  · constructor
    · intro hc
      cases hf : cmds.find? (fun x => commandHandlerCheck wl bu x m) with
      | some c' =>
        unfold routeUpdate at hc
        rw [hf] at hc
        simp at hc
      | none =>
        unfold routeUpdate at hc
        rw [hf] at hc
        by_cases hm : messageHandlerCheck wl m = true
        · simp only [messageHandlerCheck, Bool.and_eq_true, Bool.not_eq_true'] at hm
          exact ⟨hm.2, hm.1.1, hm.1.2⟩
        · simp [hm] at hc
    · rintro ⟨hs, htc, hnc⟩
      have hmc : messageHandlerCheck wl m = true := by
        simp [messageHandlerCheck, htc, hnc, hs]
      have hf : cmds.find? (fun x => commandHandlerCheck wl bu x m) = none := by
        rw [List.find?_eq_none]
        intro x _
        simp [commandHandlerCheck, hnc]
      unfold routeUpdate
      rw [hf]
      simp [hmc]

/-- Claim C2 as stated is refuted: this accepted update is not relayed via
a bot and its payload begins with a recognized command token, yet the
dispatcher routes it to the translation handler, because the token sits in
the caption and `CommandHandler` only inspects message text. -/
theorem caption_command_routes_translation :
    accepted none "ro_bot" botCommandNames msgCaptionCommand = true
    ∧ msgCaptionCommand.viaBot = false
    ∧ (payloadText msgCaptionCommand).map
        (beginsWithRecognizedCommandToken botCommandNames) = some true
    ∧ routeUpdate none "ro_bot" botCommandNames msgCaptionCommand
        = some Route.translation := by decide

/-- Claim C3: exactly one offload pool instance exists for the process
lifetime: the run trace creates pool 0 once, before the dispatcher is
built, no other creation event occurs, the bot that submits every
translation job is wired to that same instance, and the pool is shut down
(drained and stopped) at shutdown, after polling ends. -/
theorem single_offload_pool_lifecycle :
    (runTrace.filter isCreatePoolEvent).length = 1
    ∧ runTrace.count (RunEvent.createPool 0) = 1
    ∧ runTrace.findIdx (fun e => e == RunEvent.createPool 0)
        < runTrace.findIdx (fun e => e == RunEvent.buildDispatcher)
    ∧ runTrace.count (RunEvent.createBot 0) = 1
    ∧ BotModel.translationSubmitTarget appBot = 0
    ∧ runTrace.count (RunEvent.shutdownPool 0) = 1
    ∧ runTrace.findIdx (fun e => e == RunEvent.polling)
        < runTrace.findIdx (fun e => e == RunEvent.shutdownPool 0) := by decide

/-- Claim C10: startup publishes command list, description and short
description for exactly the default locale and ru, one publication of each
kind per locale, in source order, and every command handler registration
draws its commands from the default locale. -/
theorem publication_locales_exact :
    publicationLocales = [none, some "ru", none, some "ru", none, some "ru"]
    ∧ publicationLocales.dedup = [none, some "ru"]
    ∧ appInitTrace.count (RunEvent.setCommands none) = 1
    ∧ appInitTrace.count (RunEvent.setCommands (some "ru")) = 1
    ∧ appInitTrace.count (RunEvent.setDescription none) = 1
    ∧ appInitTrace.count (RunEvent.setDescription (some "ru")) = 1
    ∧ appInitTrace.count (RunEvent.setShortDescription none) = 1
    ∧ appInitTrace.count (RunEvent.setShortDescription (some "ru")) = 1
    ∧ handlerSourceLocales = List.replicate (command_sequence none).length none := by
  decide

/-- Running an operation list decomposes over append. -/
theorem runOps_append (s : PoolState) (ops1 ops2 : List PoolOp) :
    runOps s (ops1 ++ ops2) = runOps (runOps s ops1) ops2 := by
  simp [runOps, List.foldl_append]

/-- FIFO invariant of the single-worker pool: along any operation
sequence, the execution log followed by the still-pending queue equals the
starting log and queue followed by the accepted submissions in submission
order. -/
theorem runOps_exec_invariant (ops : List PoolOp) (s : PoolState) :
    (runOps s ops).execLog ++ (runOps s ops).pending
      = s.execLog ++ (s.pending ++ acceptedSubs s ops) := by
  induction ops generalizing s with
  | nil => simp [runOps, acceptedSubs]
  | cons op rest ih =>
    have hr : runOps s (op :: rest) = runOps (poolApply s op) rest := by
      simp [runOps]
    rw [hr]
    cases op with
    | submit j =>
      by_cases ho : s.openFlag = true
      · rw [ih]
        simp [poolApply, ho, acceptedSubs, List.append_assoc]
      · rw [ih]
        simp [poolApply, ho, acceptedSubs]
    | step =>
      cases hp : s.pending with
      | nil =>
        rw [ih]
        simp [poolApply, hp, acceptedSubs]
      | cons j ps =>
        rw [ih]
        simp [poolApply, hp, acceptedSubs, List.append_assoc]
    | drainAndStop =>
      rw [ih]
      simp [poolApply, acceptedSubs, List.append_assoc]

/-- Submissions leave the open flag unchanged. -/
theorem poolApply_submit_open (s : PoolState) (j : Nat) :
    (poolApply s (PoolOp.submit j)).openFlag = s.openFlag := by
  by_cases ho : s.openFlag = true <;> simp [poolApply, ho]

/-- While the pool is open, every submission in a pure submission
sequence is accepted, in order. -/
theorem acceptedSubs_submits (js : List Nat) (s : PoolState)
    (h : s.openFlag = true) :
    acceptedSubs s (js.map PoolOp.submit) = js := by
  induction js generalizing s with
  | nil => simp [acceptedSubs]
  | cons j rest ih =>
    simp only [List.map_cons, acceptedSubs, h, if_pos]
    rw [ih (poolApply s (PoolOp.submit j)) (by rw [poolApply_submit_open]; exact h)]
    simp

/-- Accepted submissions decompose over append. -/
theorem acceptedSubs_append (ops1 ops2 : List PoolOp) (s : PoolState) :
    acceptedSubs s (ops1 ++ ops2)
      = acceptedSubs s ops1 ++ acceptedSubs (runOps s ops1) ops2 := by
  induction ops1 generalizing s with
  | nil => simp [acceptedSubs, runOps]
  | cons op rest ih =>
    have hr : runOps s (op :: rest) = runOps (poolApply s op) rest := by
      simp [runOps]
    cases op with
    | submit j =>
      simp only [List.cons_append, acceptedSubs, hr, List.append_eq]
      rw [ih]
      simp [List.append_assoc]
    | step =>
      simp only [List.cons_append, acceptedSubs, hr, List.append_eq]
      exact ih _
    | drainAndStop =>
      simp only [List.cons_append, acceptedSubs, hr, List.append_eq]
      exact ih _

/-- Claim C4: jobs submitted to the offload pool while it is open are
executed by the single worker in exactly their submission order.  The
first conjunct: submitting `js` and then draining yields worker execution
log `js`.  The second: along any interleaving of submissions, worker
steps and shutdown, the execution log extended by the pending queue is
the sequence of accepted submissions in order, so the log is always a
prefix of the submission order and no reordering ever occurs; the model
worker executes one job at a time, which is the `max_workers=1`
configuration of the source. -/
theorem offload_pool_fifo (js : List Nat) (ops : List PoolOp) :
    (runOps PoolState.initial (js.map PoolOp.submit ++ [PoolOp.drainAndStop])).execLog = js
    ∧ (runOps PoolState.initial ops).execLog ++ (runOps PoolState.initial ops).pending
        = acceptedSubs PoolState.initial ops := by
  constructor
  · have hinv := runOps_exec_invariant (js.map PoolOp.submit ++ [PoolOp.drainAndStop])
      PoolState.initial
    have hpend : (runOps PoolState.initial
        (js.map PoolOp.submit ++ [PoolOp.drainAndStop])).pending = [] := by
      rw [runOps_append]
      simp [runOps, poolApply]
    have hacc : acceptedSubs PoolState.initial
        (js.map PoolOp.submit ++ [PoolOp.drainAndStop]) = js := by
      rw [acceptedSubs_append]
      rw [acceptedSubs_submits js PoolState.initial rfl]
      simp [acceptedSubs]
    rw [hpend, List.append_nil, hacc] at hinv
    simpa [PoolState.initial] using hinv
  · have hinv := runOps_exec_invariant ops PoolState.initial
    simpa [PoolState.initial] using hinv

/-- One pool operation never resolves any result as cancelled. -/
theorem poolApply_no_cancel (s : PoolState) (op : PoolOp)
    (h : JobResult.cancelled ∉ s.results.map Prod.snd) :
    JobResult.cancelled ∉ (poolApply s op).results.map Prod.snd := by
  cases op with
  | submit j =>
    by_cases ho : s.openFlag = true <;> simpa [poolApply, ho] using h
  | step =>
    cases hp : s.pending with
    | nil => simpa [poolApply, hp] using h
    | cons j ps =>
      simp only [poolApply, hp, List.map_append, List.mem_append]
      rintro (hc | hc)
      · exact h hc
      · simp at hc
  | drainAndStop =>
    simp only [poolApply, List.map_append, List.mem_append]
    rintro (hc | hc)
    · exact h hc
    · simp [List.map_map] at hc

/-- No reachable pool state holds a cancelled result. -/
theorem runOps_no_cancel (ops : List PoolOp) (s : PoolState)
    (h : JobResult.cancelled ∉ s.results.map Prod.snd) :
    JobResult.cancelled ∉ (runOps s ops).results.map Prod.snd := by
  induction ops generalizing s with
  | nil => simpa [runOps] using h
  | cons op rest ih =>
    have hr : runOps s (op :: rest) = runOps (poolApply s op) rest := by
      simp [runOps]
    rw [hr]
    exact ih _ (poolApply_no_cancel s op h)

/-- Claim C9 (amended): after `shutdown()` the pool accepts no new jobs
(`submit` fails as unavailable) and every queued or running job runs to
completion before the pool stops; the call takes no timeout and never
abandons a job, so no result ever resolves as cancelled on any operation
sequence. -/
theorem drain_and_stop_semantics (s : PoolState) (j : Nat) (ops : List PoolOp) :
    (poolApply s PoolOp.drainAndStop).openFlag = false
    ∧ (poolApply s PoolOp.drainAndStop).execLog = s.execLog ++ s.pending
    ∧ (poolApply s PoolOp.drainAndStop).pending = []
    ∧ poolSubmit (poolApply s PoolOp.drainAndStop) j = SubmitResult.poolUnavailable
    ∧ (poolApply s PoolOp.drainAndStop).results
        = s.results ++ s.pending.map (fun k => (k, JobResult.completed))
    ∧ JobResult.cancelled ∉ ((runOps PoolState.initial ops).results.map Prod.snd) := by
  refine ⟨rfl, rfl, rfl, ?_, rfl, ?_⟩
  · simp [poolSubmit, poolApply]
  · exact runOps_no_cancel ops PoolState.initial (by simp [PoolState.initial])

/-- Witness for `drain_and_stop_semantics` at a concrete state and job. -/
theorem drain_and_stop_semantics_witness :
    poolSubmit (poolApply PoolState.initial PoolOp.drainAndStop) 5
      = SubmitResult.poolUnavailable :=
  (drain_and_stop_semantics PoolState.initial 5 []).2.2.2.1

/-- Claim C9 as stated is refuted: shutting the pool down with one job
outstanding resolves that job as completed, never as cancelled, because
`ProcessPoolExecutor.shutdown()` is called with its default `wait=True`
and accepts no timeout; new submissions do fail afterwards. -/
theorem drain_completes_jobs_not_cancelled :
    (poolApply (poolApply PoolState.initial (PoolOp.submit 7)) PoolOp.drainAndStop).results
      = [(7, JobResult.completed)]
    ∧ (7, JobResult.cancelled)
        ∉ (poolApply (poolApply PoolState.initial (PoolOp.submit 7)) PoolOp.drainAndStop).results
    ∧ poolSubmit (poolApply (poolApply PoolState.initial (PoolOp.submit 7)) PoolOp.drainAndStop) 8
      = SubmitResult.poolUnavailable := by decide

/-- Execution of an unprotected publication sequence: the successful
prefix is attempted, the first failing action is attempted and stops the
sequence, and the sequence succeeds exactly when no action fails. -/
theorem attempt_publishes_spec (fails : PubAction → Bool) (acts : List PubAction) :
    (attemptPublishes fails acts).1
      = acts.takeWhile (fun a => !(fails a))
        ++ (acts.dropWhile (fun a => !(fails a))).take 1
    ∧ (attemptPublishes fails acts).2 = acts.all (fun a => !(fails a)) := by
  induction acts with
  | nil => exact ⟨rfl, rfl⟩
  | cons a rest ih =>
    cases hfa : fails a with
    | true =>
      constructor
      · simp [attemptPublishes, hfa, List.takeWhile_cons, List.dropWhile_cons]
      · simp [attemptPublishes, hfa]
    | false =>
      constructor
      · simp [attemptPublishes, hfa, List.takeWhile_cons, List.dropWhile_cons, ih.1]
      · simp [attemptPublishes, hfa, ih.2]

/-- Claim C6 (amended): `__initialize_application` wraps no publication in
a try block, so a failure publishing for one locale aborts the remaining
publications rather than continuing best-effort; a failure constructing
the offload pool aborts startup entirely, before the dispatcher is built
or polling starts. -/
theorem publish_abort_semantics :
    (∀ fails : PubAction → Bool,
      (attemptPublishes fails publishActions).1
        = publishActions.takeWhile (fun a => !(fails a))
          ++ (publishActions.dropWhile (fun a => !(fails a))).take 1
      ∧ (attemptPublishes fails publishActions).2
          = publishActions.all (fun a => !(fails a)))
    ∧ RunEvent.polling ∉ runScenario FailurePoint.poolCreate
    ∧ RunEvent.buildDispatcher ∉ runScenario FailurePoint.poolCreate
    ∧ RunEvent.setCommands none ∉ runScenario FailurePoint.poolCreate := by
  refine ⟨fun fails => attempt_publishes_spec fails publishActions, ?_, ?_, ?_⟩
  · decide
  · decide
  · decide

/-- Claim C6 as stated is refuted: when publishing the ru command list
fails, the later publications for the default locale (description and
short description) are never attempted, so publication is not best-effort
per locale. -/
theorem publish_failure_not_best_effort :
    ((attemptPublishes (fun x => x == PubAction.commands (some "ru")) publishActions).2
      = false)
    ∧ PubAction.descr none
        ∉ (attemptPublishes (fun x => x == PubAction.commands (some "ru")) publishActions).1
    ∧ PubAction.shortDescr none
        ∉ (attemptPublishes (fun x => x == PubAction.commands (some "ru")) publishActions).1
    ∧ PubAction.descr (some "ru")
        ∉ (attemptPublishes (fun x => x == PubAction.commands (some "ru")) publishActions).1
    ∧ PubAction.commands (some "ru") ∈ publishActions := by decide

/-- Claim C8 (amended): the `post_shutdown` callback shuts the pool down
exactly once, bracketed by the begin and end log events, in a completed
run and also when a publication inside `post_init` failed partway; but
when startup fails before the dispatcher runs (configuration read, pool
construction, or dispatcher build), the shutdown callback never runs and
the pool is not stopped. -/
theorem shutdown_stop_semantics :
    ((runScenario FailurePoint.noFailure).count (RunEvent.shutdownPool 0) = 1)
    ∧ ((runScenario FailurePoint.noFailure).drop
        ((runScenario FailurePoint.noFailure).length - 3)
        = [RunEvent.logShutdownBegin, RunEvent.shutdownPool 0, RunEvent.logShutdownEnd])
    ∧ (∀ a ∈ publishActions,
        (runScenario (FailurePoint.publish a)).count (RunEvent.shutdownPool 0) = 1)
    ∧ ((runScenario FailurePoint.configRead).count (RunEvent.shutdownPool 0) = 0)
    ∧ ((runScenario FailurePoint.poolCreate).count (RunEvent.shutdownPool 0) = 0)
    ∧ ((runScenario FailurePoint.dispatcherBuild).count (RunEvent.shutdownPool 0) = 0)
    := by decide

/-- Claim C8 as stated is refuted: in the run where the dispatcher build
fails after the pool has been constructed, startup partially failed with a
live pool, yet the shutdown callback never runs, so stop is invoked zero
times rather than exactly once. -/
theorem stop_not_invoked_on_early_failure :
    RunEvent.createPool 0 ∈ runScenario FailurePoint.dispatcherBuild
    ∧ (runScenario FailurePoint.dispatcherBuild).count (RunEvent.shutdownPool 0) = 0
    ∧ RunEvent.logShutdownBegin ∉ runScenario FailurePoint.dispatcherBuild := by decide

/-- Claim C7 (amended): with the error handler registered, every handler
exception is contained: the dispatch loop handles all updates (a failure
never terminates it and nothing propagates to the update source), the
error handler is a total function that only writes log lines, each failing
update contributes exactly one log line, and that line carries the
formatted error; the update argument itself is ignored by
`__handle_error`, so the log line identifies the update only as far as the
error text does. -/
theorem handler_errors_contained (handler : Message → HandleOutcome)
    (us : List Message) :
    (dispatchAll handler us).1 = us.length
    ∧ (dispatchAll handler us).2.length
        = (us.filter (fun u =>
            match handler u with
            | HandleOutcome.failure _ => true
            | HandleOutcome.success => false)).length
    ∧ (∀ u ∈ us, ∀ e, handler u = HandleOutcome.failure e →
        ("application error: " ++ e) ∈ (dispatchAll handler us).2) := by
  induction us with
  | nil =>
    refine ⟨rfl, rfl, ?_⟩
    intro u hu
    exact absurd hu (List.not_mem_nil u)
  | cons u rest ih =>
    cases hu : handler u with
    | success =>
      refine ⟨?_, ?_, ?_⟩
      · simp [dispatchAll, hu, ih.1]
      · simp [dispatchAll, hu, List.filter_cons, ih.2.1]
      · intro v hv e hve
        rcases List.mem_cons.mp hv with hvu | hvr
        · subst hvu
          rw [hu] at hve
          exact absurd hve (by simp)
        · have := ih.2.2 v hvr e hve
          simpa [dispatchAll, hu] using this
    | failure e0 =>
      refine ⟨?_, ?_, ?_⟩
      · simp [dispatchAll, hu, ih.1]
      · simp [dispatchAll, hu, List.filter_cons, handleErrorLog, ih.2.1]
      · intro v hv e hve
        rcases List.mem_cons.mp hv with hvu | hvr
        · subst hvu
          rw [hu] at hve
          have he : e = e0 := by
            cases hve
            rfl
          subst he
          simp [dispatchAll, hu, handleErrorLog]
        · have := ih.2.2 v hvr e hve
          simp [dispatchAll, hu, handleErrorLog]
          right
          simpa using this

/-- Claim C7 as stated is refuted on the identification clause: two
distinct updates produce identical error-handler logs for the same error,
because `__handle_error` ignores its update argument and formats only
`context.error`, so the log does not carry enough context to identify the
failing update. -/
theorem error_log_not_identifying :
    msgPlainText ≠ msgPlainTextBob
    ∧ handleErrorLog msgPlainText "boom" = handleErrorLog msgPlainTextBob "boom"
    ∧ handleErrorLog msgPlainText "boom" = ["application error: boom"] := by decide

/-- Claim C5: for every supported locale other than the default, the
command registry yields a non-empty sequence with exactly the same command
names in the same order as the default locale, differing only in display
text. -/
theorem command_sequence_same_names (L : Option String)
    (hmem : L ∈ supportedLocales) (hne : L ≠ none) :
    (command_sequence L).map Command.command
      = (command_sequence none).map Command.command
    ∧ command_sequence L ≠ [] := by
  simp only [supportedLocales, List.mem_cons, List.mem_singleton] at hmem
  rcases hmem with h | h | h
  · exact absurd h hne
  · subst h
    exact ⟨by decide, by decide⟩
  · exact absurd h (by simp)

/-- Witness for `command_sequence_same_names` at the ru locale. -/
theorem command_sequence_same_names_witness :
    (some "ru") ∈ supportedLocales
    ∧ (some "ru" : Option String) ≠ none
    ∧ ((command_sequence (some "ru")).map Command.command
        = (command_sequence none).map Command.command
      ∧ command_sequence (some "ru") ≠ []) :=
  ⟨by decide, by decide,
   command_sequence_same_names (some "ru") (by decide) (by decide)⟩
